import Mathlib

/-!
Verification of the polybot-rs market-making engine.

Shallow embedding of the Rust sources under src/: prices are ticks
modelled as Nat (u16 subtraction in the source is saturating_sub, which
is Nat subtraction), timestamps and second counts are Int (i64), and
rust_decimal `Decimal` quantities (sizes, costs) are modelled as Rat,
since Decimal arithmetic on these values is exact. HashMaps are
modelled as association lists; Vec as List.
-/

/- ============================================================
   events.rs: Side
   ============================================================ -/

inductive Side where
  | yes
  | no
deriving DecidableEq, Repr

def Side.opposite : Side → Side
  | .yes => .no
  | .no => .yes

/- ============================================================
   state/book.rs: Book
   ============================================================ -/

structure Book where
  yes_bid : Option Nat
  yes_ask : Option Nat
  no_bid : Option Nat
  no_ask : Option Nat
  last_update_ms : Int
deriving DecidableEq, Repr

def Book.default : Book :=
  { yes_bid := none, yes_ask := none, no_bid := none, no_ask := none, last_update_ms := 0 }

def Book.is_synced (b : Book) : Bool :=
  b.yes_ask.isSome && b.no_ask.isSome

def Book.update (b : Book) (side : Side) (bid ask : Nat) (timestamp_ms : Int) : Book :=
  match side with
  | .yes => { b with yes_bid := some bid, yes_ask := some ask, last_update_ms := timestamp_ms }
  | .no => { b with no_bid := some bid, no_ask := some ask, last_update_ms := timestamp_ms }

def Book.best_ask (b : Book) (side : Side) : Option Nat :=
  match side with
  | .yes => b.yes_ask
  | .no => b.no_ask

def Book.best_bid (b : Book) (side : Side) : Option Nat :=
  match side with
  | .yes => b.yes_bid
  | .no => b.no_bid

def Book.opposite_ask (b : Book) (side : Side) : Option Nat :=
  match side with
  | .yes => b.no_ask
  | .no => b.yes_ask

/- ============================================================
   state/position.rs: Position
   ============================================================ -/

structure Position where
  qty_yes : Rat
  qty_no : Rat
  cost_yes : Rat
  cost_no : Rat
deriving DecidableEq, Repr

def Position.default : Position :=
  { qty_yes := 0, qty_no := 0, cost_yes := 0, cost_no := 0 }

def Position.net_position (p : Position) : Rat :=
  p.qty_yes - p.qty_no

def Position.imbalance (p : Position) : Rat :=
  |p.qty_yes - p.qty_no|

def Position.min_pnl_ticks (p : Position) : Rat :=
  let min_qty := min p.qty_yes p.qty_no
  let payout := min_qty * 1000
  let total_cost := p.cost_yes + p.cost_no
  payout - total_cost

def Position.apply_fill (p : Position) (side : Side) (price_ticks : Nat) (size : Rat) : Position :=
  let cost := (price_ticks : Rat) * size
  match side with
  | .yes => { p with qty_yes := p.qty_yes + size, cost_yes := p.cost_yes + cost }
  | .no => { p with qty_no := p.qty_no + size, cost_no := p.cost_no + cost }

/-- A sequence of fills (side, price in ticks, size) applied from left to right. -/
def applyFills (fills : List (Side × Nat × Rat)) : Position :=
  fills.foldl (fun p f => p.apply_fill f.1 f.2.1 f.2.2) Position.default

/- ============================================================
   state/market.rs: Market
   ============================================================ -/

structure Market where
  market_id : String
  token_id_yes : String
  token_id_no : String
  slug : String
  end_timestamp_ms : Int
deriving DecidableEq, Repr

def Market.time_remaining_secs (m : Market) (now_ms : Int) : Int :=
  max ((m.end_timestamp_ms - now_ms) / 1000) 0

/- ============================================================
   strategy/pricing.rs
   ============================================================ -/

def calc_max_bid (side : Side) (book : Book) (margin_ticks : Nat) : Nat :=
  match book.opposite_ask side with
  | none => 0
  | some opposite_ask => 1000 - opposite_ask - margin_ticks

/- ============================================================
   strategy/sizing.rs
   ============================================================ -/

inductive MarketDuration where
  | FiveMin
  | FifteenMin
deriving DecidableEq, Repr

def calc_size_5m (time_remaining_secs : Int) : Rat :=
  if time_remaining_secs > 180 then 12
  else if time_remaining_secs > 120 then 11
  else if time_remaining_secs > 60 then 9
  else 7

def calc_size_15m (time_remaining_secs : Int) : Rat :=
  if time_remaining_secs > 540 then 24
  else if time_remaining_secs > 360 then 20
  else if time_remaining_secs > 180 then 16
  else 12

def calc_size (time_remaining_secs : Int) (duration : MarketDuration) : Rat :=
  match duration with
  | .FiveMin => calc_size_5m time_remaining_secs
  | .FifteenMin => calc_size_15m time_remaining_secs

def can_place (side : Side) (position : Position) (max_position : Rat) : Bool :=
  let net := position.net_position
  let side_exposure := match side with
    | Side.yes => net
    | Side.no => -net
  decide (side_exposure < max_position)

def calc_size_with_limit (side : Side) (position : Position) (time_remaining_secs : Int)
    (duration : MarketDuration) (max_position : Rat) : Rat :=
  if can_place side position max_position then calc_size time_remaining_secs duration
  else 0

/- ============================================================
   state/orders.rs: StandingOrder, OrderTracker

   The Rust HashMap from price to Vec of orders is modelled as an
   association list (iteration order of a Rust HashMap is
   unspecified; the list order stands for one such order).
   ============================================================ -/

structure StandingOrder where
  order_id : String
  price : Nat
  remaining_size : Rat
  original_size : Rat
deriving DecidableEq, Repr

/-- One side of the tracker: price to the stack of orders at that price. -/
abbrev SideOrders := List (Nat × List StandingOrder)

/-- Lookup of a price bucket, as HashMap::get. -/
def lookupBucket : SideOrders → Nat → Option (List StandingOrder)
  | [], _ => none
  | b :: rest, p => if b.1 = p then some b.2 else lookupBucket rest p

/-- HashMap entry(price).or_default().push(o): append o to the bucket at
this price, creating the bucket when absent. -/
def addBuckets (p : Nat) (o : StandingOrder) : SideOrders → SideOrders
  | [] => [(p, [o])]
  | b :: rest => if b.1 = p then (b.1, b.2 ++ [o]) :: rest else b :: addBuckets p o rest

/-- Remove the first order with this id from a bucket (Vec::remove at the
position found), returning it and the rest. -/
def removeFirst (oid : String) : List StandingOrder → Option (StandingOrder × List StandingOrder)
  | [] => none
  | x :: rest =>
    if x.order_id = oid then some (x, rest)
    else (removeFirst oid rest).map (fun r => (r.1, x :: r.2))

/-- remove_by_id over one side: find the first bucket holding the id,
remove the order there, and drop the bucket if it became empty. -/
def removeByIdSide (oid : String) : SideOrders → Option StandingOrder × SideOrders
  | [] => (none, [])
  | b :: rest =>
    match removeFirst oid b.2 with
    | some r => (some r.1, if r.2.isEmpty then rest else (b.1, r.2) :: rest)
    | none =>
      let q := removeByIdSide oid rest
      (q.1, b :: q.2)

/-- Decrement the first order with this id in a bucket by the fill,
reporting whether its remaining size dropped to zero or below. -/
def fillFirst (oid : String) (fill : Rat) : List StandingOrder → Option (List StandingOrder × Bool)
  | [] => none
  | x :: rest =>
    if x.order_id = oid then
      let x2 := { x with remaining_size := x.remaining_size - fill }
      some (x2 :: rest, decide (x2.remaining_size ≤ 0))
    else (fillFirst oid fill rest).map (fun r => (x :: r.1, r.2))

/-- update_fill over one side: decrement in the first bucket holding the
id; when the order is fully filled, retain only other ids in that bucket
and drop the bucket if it became empty. -/
def updateFillSide (oid : String) (fill : Rat) : SideOrders → SideOrders
  | [] => []
  | b :: rest =>
    match fillFirst oid fill b.2 with
    | none => b :: updateFillSide oid fill rest
    | some r =>
      if r.2 then
        let kept := r.1.filter (fun o => decide (o.order_id ≠ oid))
        if kept.isEmpty then rest else (b.1, kept) :: rest
      else (b.1, r.1) :: rest

/-- HashMap::remove of a price key. -/
def eraseKey (p : Nat) (m : SideOrders) : SideOrders :=
  m.filter (fun b => decide (b.1 ≠ p))

/-- First order with this id, scanning buckets in order; names the order
that update_fill and remove_by_id act on. -/
def findOrderSide (oid : String) : SideOrders → Option StandingOrder
  | [] => none
  | b :: rest =>
    match b.2.find? (fun o => decide (o.order_id = oid)) with
    | some o => some o
    | none => findOrderSide oid rest

/-- find_price_by_id over one side. -/
def findPriceSide (oid : String) : SideOrders → Option Nat
  | [] => none
  | b :: rest =>
    if b.2.any (fun o => decide (o.order_id = oid)) then some b.1
    else findPriceSide oid rest

/-- Number of orders with this id on one side. -/
def idCountSide (oid : String) (m : SideOrders) : Nat :=
  (m.map (fun b => (b.2.filter (fun o => decide (o.order_id = oid))).length)).sum

structure OrderTracker where
  yes_orders : SideOrders
  no_orders : SideOrders
deriving DecidableEq, Repr

def OrderTracker.empty : OrderTracker :=
  { yes_orders := [], no_orders := [] }

/-- The orders() accessor: the map for one side. -/
def OrderTracker.ordersOn (t : OrderTracker) : Side → SideOrders
  | .yes => t.yes_orders
  | .no => t.no_orders

/-- The orders_mut() accessor: replace the map for one side. -/
def OrderTracker.setOrders (t : OrderTracker) : Side → SideOrders → OrderTracker
  | .yes, m => { t with yes_orders := m }
  | .no, m => { t with no_orders := m }

def OrderTracker.add (t : OrderTracker) (side : Side) (order_id : String) (price : Nat)
    (size : Rat) : OrderTracker :=
  t.setOrders side (addBuckets price
    { order_id := order_id, price := price, remaining_size := size, original_size := size }
    (t.ordersOn side))

def OrderTracker.remove_by_id (t : OrderTracker) (side : Side) (order_id : String) :
    Option StandingOrder × OrderTracker :=
  let r := removeByIdSide order_id (t.ordersOn side)
  (r.1, t.setOrders side r.2)

def OrderTracker.remove_at_price (t : OrderTracker) (side : Side) (price : Nat) :
    List StandingOrder × OrderTracker :=
  ((lookupBucket (t.ordersOn side) price).getD [], t.setOrders side (eraseKey price (t.ordersOn side)))

def OrderTracker.update_fill (t : OrderTracker) (side : Side) (order_id : String)
    (filled_size : Rat) : OrderTracker :=
  t.setOrders side (updateFillSide order_id filled_size (t.ordersOn side))

def OrderTracker.clear (t : OrderTracker) (side : Side) : OrderTracker :=
  t.setOrders side []

def OrderTracker.clear_all (_t : OrderTracker) : OrderTracker :=
  { yes_orders := [], no_orders := [] }

def OrderTracker.orders_at_price (t : OrderTracker) (side : Side) (price : Nat) :
    List StandingOrder :=
  (lookupBucket (t.ordersOn side) price).getD []

def OrderTracker.total_size_at_price (t : OrderTracker) (side : Side) (price : Nat) : Rat :=
  match lookupBucket (t.ordersOn side) price with
  | some orders => (orders.map (fun o => o.remaining_size)).sum
  | none => 0

def OrderTracker.prices (t : OrderTracker) (side : Side) : List Nat :=
  (t.ordersOn side).map (fun b => b.1)

def OrderTracker.all_orders (t : OrderTracker) (side : Side) : List StandingOrder :=
  ((t.ordersOn side).map (fun b => b.2)).flatten

def OrderTracker.count (t : OrderTracker) (side : Side) : Nat :=
  ((t.ordersOn side).map (fun b => b.2.length)).sum

def OrderTracker.find_price_by_id (t : OrderTracker) (side : Side) (order_id : String) :
    Option Nat :=
  findPriceSide order_id (t.ordersOn side)

/- ============================================================
   Tracker operation sequences and invariants
   ============================================================ -/

/-- One mutating call of the OrderTracker API, with its arguments. -/
inductive TrackerOp where
  | add (side : Side) (order_id : String) (price : Nat) (size : Rat)
  | removeById (side : Side) (order_id : String)
  | removeAtPrice (side : Side) (price : Nat)
  | updateFill (side : Side) (order_id : String) (fill : Rat)
  | clear (side : Side)
  | clearAll
deriving DecidableEq, Repr

def applyOp (t : OrderTracker) : TrackerOp → OrderTracker
  | .add s oid p sz => t.add s oid p sz
  | .removeById s oid => (t.remove_by_id s oid).2
  | .removeAtPrice s p => (t.remove_at_price s p).2
  | .updateFill s oid f => t.update_fill s oid f
  | .clear s => t.clear s
  | .clearAll => t.clear_all

def applyOps (ops : List TrackerOp) (t : OrderTracker) : OrderTracker :=
  ops.foldl applyOp t

/-- An add call carrying a strictly positive size (the other API calls
pass vacuously). -/
def TrackerOp.positiveAdd : TrackerOp → Prop
  | .add _ _ _ sz => 0 < sz
  | _ => True

instance (op : TrackerOp) : Decidable op.positiveAdd :=
  match op with
  | .add _ _ _ sz => inferInstanceAs (Decidable (0 < sz))
  | .removeById _ _ => .isTrue trivial
  | .removeAtPrice _ _ => .isTrue trivial
  | .updateFill _ _ _ => .isTrue trivial
  | .clear _ => .isTrue trivial
  | .clearAll => .isTrue trivial

/-- No price maps to an empty order list. -/
def bucketsNonempty (m : SideOrders) : Prop :=
  ∀ b ∈ m, b.2 ≠ []

/-- Every stored order has remaining size strictly greater than 0. -/
def sizesPositive (m : SideOrders) : Prop :=
  ∀ b ∈ m, ∀ o ∈ b.2, 0 < o.remaining_size

/-- One side of the tracker invariant of the spec. -/
def SideInv (m : SideOrders) : Prop :=
  bucketsNonempty m ∧ sizesPositive m

/-- The tracker invariant: no empty price bucket and no order with
remaining size at or below zero, on both sides. -/
def TrackerInv (t : OrderTracker) : Prop :=
  SideInv t.yes_orders ∧ SideInv t.no_orders

instance (m : SideOrders) : Decidable (bucketsNonempty m) := by
  unfold bucketsNonempty; infer_instance

instance (m : SideOrders) : Decidable (sizesPositive m) := by
  unfold sizesPositive; infer_instance

instance (m : SideOrders) : Decidable (SideInv m) := by
  unfold SideInv; infer_instance

instance (t : OrderTracker) : Decidable (TrackerInv t) := by
  unfold TrackerInv; infer_instance

/-- No order on this side carries the given id. -/
def noId (oid : String) (m : SideOrders) : Prop :=
  ∀ b ∈ m, ∀ o ∈ b.2, o.order_id ≠ oid

instance (oid : String) (m : SideOrders) : Decidable (noId oid m) := by
  unfold noId; infer_instance

/- ============================================================
   strategy/actions.rs: Action
   ============================================================ -/

/-- The Action enum of the source (named BotAction here only because
Mathlib already declares a constant called Action). -/
inductive BotAction where
  | Place (side : Side) (price : Nat) (size : Rat)
  | Cancel (order_id : String)
  | CancelAll
  | Take (side : Side) (size : Rat) (max_price : Nat)
deriving DecidableEq, Repr

/- ============================================================
   strategy/mod.rs: StrategyConfig, build_ladder, reconcile
   ============================================================ -/

structure StrategyConfig where
  margin_ticks : Nat
  max_position : Rat
  min_order_size : Rat
  ladder_rungs : Nat
  rung_spacing : Nat
  duration : MarketDuration
  rebalance_threshold : Rat
  max_take_size : Rat
deriving DecidableEq, Repr

def StrategyConfig.default : StrategyConfig :=
  { margin_ticks := 5
    max_position := 150
    min_order_size := 5
    ladder_rungs := 3
    rung_spacing := 10
    duration := .FiveMin
    rebalance_threshold := 30
    max_take_size := 12 }

/-- Insert into the price-to-size ladder map, overwriting an existing key
(HashMap::insert). -/
def insertAssoc (k : Nat) (v : Rat) : List (Nat × Rat) → List (Nat × Rat)
  | [] => [(k, v)]
  | b :: rest => if b.1 = k then (k, v) :: rest else b :: insertAssoc k v rest

/-- Ladder map lookup (HashMap::get). -/
def lookupAssoc : List (Nat × Rat) → Nat → Option Rat
  | [], _ => none
  | b :: rest, p => if b.1 = p then some b.2 else lookupAssoc rest p

def build_ladder (top_price : Nat) (size : Rat) (config : StrategyConfig) :
    List (Nat × Rat) :=
  if top_price = 0 ∨ size = 0 then []
  else
    (List.range config.ladder_rungs).foldl (fun ladder i =>
      let price := top_price - i * config.rung_spacing
      if 100 ≤ price then insertAssoc price size ladder else ladder) []

/-- Modelled from the spec: check_rebalance in src/src/strategy/mod.rs is
an unimplemented stub returning None, with its intended body given as a
pseudocode comment; this definition follows that pseudocode and spec
section 4.8 (imbalance gate, lighter side, take size min(imbalance/3,
max_take_size), skip when the lighter side's ask is absent or above 600). -/
def check_rebalance (position : Position) (book : Book) (config : StrategyConfig) :
    Option BotAction :=
  let imbalance := position.imbalance
  if imbalance ≤ config.rebalance_threshold then none
  else
    let light_side := if 0 < position.net_position then Side.no else Side.yes
    let take_size := min (imbalance / 3) config.max_take_size
    match book.best_ask light_side with
    | none => none
    | some max_price =>
      if 600 < max_price then none
      else some (BotAction.Take light_side take_size max_price)

/-- Modelled from the spec: the per-side half of reconcile, which in
src/src/strategy/mod.rs is an unimplemented stub returning an empty Vec
with its intended body given as a pseudocode comment; this definition
follows that pseudocode and spec section 4.8. For one side: compute the
ideal ladder from pricing and sizing, emit a Cancel for every order at a
resting price absent from the ladder, then for every ladder rung whose
resting total falls short emit one Place for the shortfall when it is at
least min_order_size. -/
def reconcileSide (side : Side) (book : Book) (position : Position) (orders : OrderTracker)
    (time_remaining_secs : Int) (config : StrategyConfig) : List BotAction :=
  let max_bid := calc_max_bid side book config.margin_ticks
  let size := calc_size_with_limit side position time_remaining_secs config.duration
    config.max_position
  let ideal := build_ladder max_bid size config
  let cancels := ((orders.ordersOn side).map (fun b =>
    if lookupAssoc ideal b.1 = none then b.2.map (fun o => BotAction.Cancel o.order_id)
    else [])).flatten
  let places := ideal.filterMap (fun rung =>
    let current := orders.total_size_at_price side rung.1
    if current < rung.2 then
      if config.min_order_size ≤ rung.2 - current then
        some (BotAction.Place side rung.1 (rung.2 - current))
      else none
    else none)
  cancels ++ places

/-- Modelled from the spec: reconcile in src/src/strategy/mod.rs is an
unimplemented stub returning an empty Vec, with its intended body given
as a pseudocode comment; this definition follows that pseudocode and spec
section 4.8: YES-side actions, then NO-side actions, then the optional
rebalance action. -/
def reconcile (book : Book) (position : Position) (orders : OrderTracker) (market : Market)
    (config : StrategyConfig) (now_ms : Int) : List BotAction :=
  let time_remaining := market.time_remaining_secs now_ms
  reconcileSide Side.yes book position orders time_remaining config ++
    reconcileSide Side.no book position orders time_remaining config ++
    (check_rebalance position book config).toList

/- ============================================================
   Theorems
   ============================================================ -/

/-- Book of Scenario A: yes_ask 490, no_ask 510 (bids as in the source's test). -/
def bookA : Book :=
  { yes_bid := some 480, yes_ask := some 490, no_bid := some 500, no_ask := some 510,
    last_update_ms := 1001 }

/-- Claim C3: calc_max_bid returns 0 when the opposite ask is absent and
otherwise 1000 minus the opposite ask minus the margin, clamped to the
interval from 0 to 1000 (saturating subtraction); with yes_ask 490,
no_ask 510 and margin 5 the YES max bid is 485 and the NO max bid is 505. -/
theorem calc_max_bid_spec :
    (∀ (side : Side) (book : Book) (margin_ticks : Nat),
      (calc_max_bid side book margin_ticks : Int) =
        match book.opposite_ask side with
        | none => 0
        | some a => min (max (1000 - (a : Int) - (margin_ticks : Int)) 0) 1000) ∧
    calc_max_bid Side.yes bookA 5 = 485 ∧ calc_max_bid Side.no bookA 5 = 505 := by
  refine ⟨?_, by decide, by decide⟩
  intro side book m
  cases h : book.opposite_ask side
  · simp [calc_max_bid, h]
  · simp only [calc_max_bid, h]
    rw [max_def, min_def]
    split_ifs <;> omega

/-- Claim C4: for every position reachable from the empty position by
apply_fill calls, min_pnl_ticks equals min(qty_yes, qty_no) * 1000 minus
(cost_yes + cost_no); the fills 20 YES at 450 and 10 NO at 520 give
qty_yes 20, cost_yes 9000, qty_no 10, cost_no 5200 and min_pnl_ticks
10 * 1000 - 14200 = -4200. -/
theorem min_pnl_ticks_spec :
    (∀ fills : List (Side × Nat × Rat),
      (applyFills fills).min_pnl_ticks =
        min (applyFills fills).qty_yes (applyFills fills).qty_no * 1000 -
          ((applyFills fills).cost_yes + (applyFills fills).cost_no)) ∧
    (applyFills [(Side.yes, 450, 20), (Side.no, 520, 10)]).qty_yes = 20 ∧
    (applyFills [(Side.yes, 450, 20), (Side.no, 520, 10)]).cost_yes = 9000 ∧
    (applyFills [(Side.yes, 450, 20), (Side.no, 520, 10)]).qty_no = 10 ∧
    (applyFills [(Side.yes, 450, 20), (Side.no, 520, 10)]).cost_no = 5200 ∧
    (applyFills [(Side.yes, 450, 20), (Side.no, 520, 10)]).min_pnl_ticks = -4200 := by
  refine ⟨fun fills => rfl, ?_, ?_, ?_, ?_, ?_⟩ <;>
    norm_num [applyFills, Position.apply_fill, Position.default, Position.min_pnl_ticks, min_def]

/-- Claim C5: the 5-minute size schedule has exact lower-bound-inclusive
tier boundaries (181 s gives 12, exactly 180 s gives 11, 61 s gives 9,
exactly 60 s gives 7) and is non-increasing as time runs out. -/
theorem calc_size_5m_spec :
    (calc_size 181 MarketDuration.FiveMin = 12 ∧ calc_size 180 MarketDuration.FiveMin = 11 ∧
      calc_size 61 MarketDuration.FiveMin = 9 ∧ calc_size 60 MarketDuration.FiveMin = 7) ∧
    ∀ t1 t2 : Int, t1 ≤ t2 →
      calc_size t1 MarketDuration.FiveMin ≤ calc_size t2 MarketDuration.FiveMin := by
  refine ⟨by norm_num [calc_size, calc_size_5m], ?_⟩
  intro t1 t2 h
  unfold calc_size calc_size_5m
  split_ifs <;> first | (exfalso; omega) | norm_num

/-- Witness for C5 at a concrete pair of times. -/
theorem calc_size_5m_spec_witness :
    (30 : Int) ≤ 100 ∧ calc_size 30 MarketDuration.FiveMin ≤ calc_size 100 MarketDuration.FiveMin :=
  ⟨by decide, calc_size_5m_spec.2 30 100 (by decide)⟩

/-- Claim C8: Book.update sets the given side's bid and ask and the
last-update timestamp and leaves the other side's bid and ask exactly as
they were. -/
theorem book_update_frame :
    ∀ (b : Book) (side : Side) (bid ask : Nat) (ts : Int),
      (b.update side bid ask ts).best_bid side = some bid ∧
      (b.update side bid ask ts).best_ask side = some ask ∧
      (b.update side bid ask ts).last_update_ms = ts ∧
      (b.update side bid ask ts).best_bid side.opposite = b.best_bid side.opposite ∧
      (b.update side bid ask ts).best_ask side.opposite = b.best_ask side.opposite := by
  intro b side bid ask ts
  cases side <;> simp [Book.update, Book.best_bid, Book.best_ask, Side.opposite]

theorem lookup_insertAssoc (k : Nat) (v : Rat) (l : List (Nat × Rat)) (p : Nat) :
    lookupAssoc (insertAssoc k v l) p = if p = k then some v else lookupAssoc l p := by
  induction l with
  | nil =>
    by_cases h : k = p <;> simp [insertAssoc, lookupAssoc, h, eq_comm]
  | cons b rest ih =>
    by_cases hb : b.1 = k
    · by_cases h : k = p <;> simp [insertAssoc, lookupAssoc, hb, h, eq_comm]
    · by_cases hbp : b.1 = p
      · have h : ¬ k = p := fun h => hb (h ▸ hbp)
        simp [insertAssoc, lookupAssoc, hb, hbp, h, eq_comm]
      · simp [insertAssoc, lookupAssoc, hb, hbp, ih]

theorem ladder_fold_lookup (top_price rung_spacing : Nat) (size : Rat) (l : List Nat)
    (acc : List (Nat × Rat)) (p : Nat) :
    lookupAssoc (l.foldl (fun ladder i =>
        if 100 ≤ top_price - i * rung_spacing then
          insertAssoc (top_price - i * rung_spacing) size ladder
        else ladder) acc) p =
      if ∃ i ∈ l, p = top_price - i * rung_spacing ∧ 100 ≤ p then some size
      else lookupAssoc acc p := by
  induction l generalizing acc with
  | nil => simp
  | cons x rest ih =>
    simp only [List.foldl_cons]
    rw [ih]
    by_cases hrest : ∃ i ∈ rest, p = top_price - i * rung_spacing ∧ 100 ≤ p
    · rw [if_pos hrest]
      obtain ⟨i, hi, hc⟩ := hrest
      rw [if_pos ⟨i, List.mem_cons_of_mem _ hi, hc⟩]
    · rw [if_neg hrest]
      by_cases hx : 100 ≤ top_price - x * rung_spacing
      · rw [if_pos hx, lookup_insertAssoc]
        by_cases hp : p = top_price - x * rung_spacing
        · rw [if_pos hp, if_pos ⟨x, List.mem_cons_self x rest, hp, hp ▸ hx⟩]
        · rw [if_neg hp, if_neg ?_]
          rintro ⟨i, hi, hc⟩
          rcases List.mem_cons.mp hi with h | h
          · exact hp (h ▸ hc.1)
          · exact hrest ⟨i, h, hc⟩
      · rw [if_neg hx, if_neg ?_]
        rintro ⟨i, hi, hc⟩
        rcases List.mem_cons.mp hi with h | h
        · exact hx (h ▸ hc.1 ▸ hc.2)
        · exact hrest ⟨i, h, hc⟩

/-- Config of Scenario C: 5 rungs, spacing 10, other fields as the source default. -/
def configC : StrategyConfig :=
  { StrategyConfig.default with ladder_rungs := 5, rung_spacing := 10 }

/-- Claim C6: build_ladder returns the empty map when top_price or size
is 0; otherwise it maps exactly the rung prices top, top - spacing, ...
(one per rung index below rung_count) that are at least the 100-tick
floor to size and omits every rung below the floor; with top 120, size
12, 5 rungs, spacing 10 it yields exactly the rungs 120, 110, 100. -/
theorem build_ladder_spec :
    (∀ (top_price : Nat) (size : Rat) (config : StrategyConfig),
      ((top_price = 0 ∨ size = 0) → build_ladder top_price size config = []) ∧
      (top_price ≠ 0 → size ≠ 0 → ∀ p : Nat,
        lookupAssoc (build_ladder top_price size config) p =
          if ∃ i ∈ List.range config.ladder_rungs,
              p = top_price - i * config.rung_spacing ∧ 100 ≤ p
          then some size else none)) ∧
    build_ladder 120 12 configC = [(120, 12), (110, 12), (100, 12)] := by
  constructor
  · intro top_price size config
    constructor
    · intro h
      simp only [build_ladder, if_pos h]
    · intro h1 h2 p
      have hno : ¬ (top_price = 0 ∨ size = 0) := by
        rintro (h | h)
        exacts [h1 h, h2 h]
      simp only [build_ladder, if_neg hno]
      exact ladder_fold_lookup top_price config.rung_spacing size
        (List.range config.ladder_rungs) [] p
  · norm_num [build_ladder, configC, StrategyConfig.default, List.range_succ, insertAssoc]

/-- Witness for C6: the general characterization applied at Scenario C's
inputs, and the empty ladder at top price 0. -/
theorem build_ladder_spec_witness :
    ((120 : Nat) ≠ 0 ∧ (12 : Rat) ≠ 0) ∧
    lookupAssoc (build_ladder 120 12 configC) 110 =
      (if ∃ i ∈ List.range configC.ladder_rungs, 110 = 120 - i * configC.rung_spacing ∧ 100 ≤ 110
       then some 12 else none) ∧
    build_ladder 0 12 configC = [] :=
  ⟨⟨by norm_num, by norm_num⟩,
    (build_ladder_spec.1 120 12 configC).2 (by norm_num) (by norm_num) 110,
    (build_ladder_spec.1 0 12 configC).1 (Or.inl rfl)⟩

theorem ordersOn_setOrders (t : OrderTracker) (s s2 : Side) (m : SideOrders) :
    (t.setOrders s m).ordersOn s2 = if s2 = s then m else t.ordersOn s2 := by
  cases s <;> cases s2 <;> simp [OrderTracker.setOrders, OrderTracker.ordersOn]

theorem setOrders_ordersOn (t : OrderTracker) (s : Side) :
    t.setOrders s (t.ordersOn s) = t := by
  cases t
  cases s <;> rfl

theorem idCountSide_eq_zero (oid : String) (m : SideOrders) :
    idCountSide oid m = 0 ↔ noId oid m := by
  rw [idCountSide, List.sum_eq_zero_iff]
  unfold noId
  constructor
  · intro h b hb o ho
    have h2 := h _ (List.mem_map_of_mem _ hb)
    rw [List.length_eq_zero, List.filter_eq_nil_iff] at h2
    intro hoid
    exact h2 o ho (by simp [hoid])
  · intro h x hx
    obtain ⟨b, hb, rfl⟩ := List.mem_map.mp hx
    rw [List.length_eq_zero, List.filter_eq_nil_iff]
    intro o ho
    simp [h b hb o ho]

theorem fillFirst_none (oid : String) (fill : Rat) (os : List StandingOrder)
    (h : ∀ o ∈ os, o.order_id ≠ oid) : fillFirst oid fill os = none := by
  induction os with
  | nil => rfl
  | cons x rest ih =>
    have hx := h x (List.mem_cons_self x rest)
    simp [fillFirst, hx, ih (fun o ho => h o (List.mem_cons_of_mem _ ho))]

theorem removeFirst_none (oid : String) (os : List StandingOrder)
    (h : ∀ o ∈ os, o.order_id ≠ oid) : removeFirst oid os = none := by
  induction os with
  | nil => rfl
  | cons x rest ih =>
    have hx := h x (List.mem_cons_self x rest)
    simp [removeFirst, hx, ih (fun o ho => h o (List.mem_cons_of_mem _ ho))]

theorem removeFirst_append_fresh (oid : String) (os : List StandingOrder) (o : StandingOrder)
    (ho : o.order_id = oid) (h : ∀ x ∈ os, x.order_id ≠ oid) :
    removeFirst oid (os ++ [o]) = some (o, os) := by
  induction os with
  | nil => simp [removeFirst, ho]
  | cons x rest ih =>
    have hx := h x (List.mem_cons_self x rest)
    simp [removeFirst, hx, ih (fun y hy => h y (List.mem_cons_of_mem _ hy))]

theorem updateFillSide_noId (oid : String) (fill : Rat) (m : SideOrders)
    (h : noId oid m) : updateFillSide oid fill m = m := by
  induction m with
  | nil => rfl
  | cons b rest ih =>
    have hb := h b (List.mem_cons_self b rest)
    simp [updateFillSide, fillFirst_none oid fill b.2 hb,
      ih (fun b2 hb2 => h b2 (List.mem_cons_of_mem _ hb2))]

theorem removeByIdSide_noId (oid : String) (m : SideOrders)
    (h : noId oid m) : removeByIdSide oid m = (none, m) := by
  induction m with
  | nil => rfl
  | cons b rest ih =>
    have hb := h b (List.mem_cons_self b rest)
    simp [removeByIdSide, removeFirst_none oid b.2 hb,
      ih (fun b2 hb2 => h b2 (List.mem_cons_of_mem _ hb2))]

theorem fillFirst_ne_nil (oid : String) (fill : Rat) (os os2 : List StandingOrder) (z : Bool)
    (h : fillFirst oid fill os = some (os2, z)) : os2 ≠ [] := by
  induction os generalizing os2 z with
  | nil => simp [fillFirst] at h
  | cons x rest ih =>
    by_cases hx : x.order_id = oid
    · simp only [fillFirst, if_pos hx, Option.some.injEq, Prod.mk.injEq] at h
      exact h.1 ▸ List.cons_ne_nil _ _
    · simp only [fillFirst, if_neg hx, Option.map_eq_some'] at h
      obtain ⟨r, _, heq⟩ := h
      have := (Prod.mk.injEq _ _ _ _).mp heq
      exact this.1 ▸ List.cons_ne_nil _ _

theorem fillFirst_mem_of_ne (oid : String) (fill : Rat) (os os2 : List StandingOrder) (z : Bool)
    (h : fillFirst oid fill os = some (os2, z)) :
    ∀ x ∈ os2, x.order_id ≠ oid → x ∈ os := by
  induction os generalizing os2 z with
  | nil => simp [fillFirst] at h
  | cons y rest ih =>
    by_cases hy : y.order_id = oid
    · simp only [fillFirst, if_pos hy, Option.some.injEq, Prod.mk.injEq] at h
      intro x hx hxid
      rw [← h.1] at hx
      rcases List.mem_cons.mp hx with h1 | h1
      · exact absurd (h1 ▸ hy) hxid
      · exact List.mem_cons_of_mem _ h1
    · simp only [fillFirst, if_neg hy, Option.map_eq_some'] at h
      obtain ⟨r, hr, heq⟩ := h
      have heq2 := (Prod.mk.injEq _ _ _ _).mp heq
      intro x hx hxid
      rw [← heq2.1] at hx
      rcases List.mem_cons.mp hx with h1 | h1
      · exact h1 ▸ List.mem_cons_self y rest
      · exact List.mem_cons_of_mem _ (ih r.1 r.2 (by rw [← hr]) x h1 hxid)

theorem fillFirst_mem_pos (oid : String) (fill : Rat) (os os2 : List StandingOrder)
    (hpos : ∀ o ∈ os, 0 < o.remaining_size)
    (h : fillFirst oid fill os = some (os2, false)) : ∀ x ∈ os2, 0 < x.remaining_size := by
  induction os generalizing os2 with
  | nil => simp [fillFirst] at h
  | cons y rest ih =>
    by_cases hy : y.order_id = oid
    · simp only [fillFirst, if_pos hy, Option.some.injEq, Prod.mk.injEq] at h
      intro x hx
      rw [← h.1] at hx
      rcases List.mem_cons.mp hx with h1 | h1
      · rw [h1]
        have hz := h.2
        simp only [decide_eq_false_iff_not, not_le] at hz
        exact hz
      · exact hpos x (List.mem_cons_of_mem _ h1)
    · simp only [fillFirst, if_neg hy, Option.map_eq_some'] at h
      obtain ⟨r, hr, heq⟩ := h
      have heq2 := (Prod.mk.injEq _ _ _ _).mp heq
      intro x hx
      rw [← heq2.1] at hx
      rcases List.mem_cons.mp hx with h1 | h1
      · exact h1 ▸ hpos y (List.mem_cons_self y rest)
      · exact ih r.1 (fun o ho => hpos o (List.mem_cons_of_mem _ ho))
          (by rw [← heq2.2, Prod.mk.eta]; exact hr) x h1

theorem removeFirst_subset (oid : String) (os : List StandingOrder)
    (r : StandingOrder × List StandingOrder) (h : removeFirst oid os = some r) :
    ∀ x ∈ r.2, x ∈ os := by
  induction os generalizing r with
  | nil => simp [removeFirst] at h
  | cons y rest ih =>
    by_cases hy : y.order_id = oid
    · simp only [removeFirst, if_pos hy, Option.some.injEq] at h
      intro x hx
      rw [← h] at hx
      exact List.mem_cons_of_mem _ hx
    · simp only [removeFirst, if_neg hy, Option.map_eq_some'] at h
      obtain ⟨r2, hr2, heq⟩ := h
      intro x hx
      rw [← heq] at hx
      rcases List.mem_cons.mp hx with h1 | h1
      · exact h1 ▸ List.mem_cons_self y rest
      · exact List.mem_cons_of_mem _ (ih r2 hr2 x h1)

theorem bucketsNonempty_addBuckets (p : Nat) (o : StandingOrder) (m : SideOrders)
    (h : bucketsNonempty m) : bucketsNonempty (addBuckets p o m) := by
  induction m with
  | nil =>
    intro b hb
    simp only [addBuckets, List.mem_singleton] at hb
    simp [hb]
  | cons x rest ih =>
    intro b hb
    by_cases hx : x.1 = p
    · simp only [addBuckets, if_pos hx] at hb
      rcases List.mem_cons.mp hb with h1 | h1
      · simp [h1]
      · exact h b (List.mem_cons_of_mem _ h1)
    · simp only [addBuckets, if_neg hx] at hb
      rcases List.mem_cons.mp hb with h1 | h1
      · exact h1 ▸ h x (List.mem_cons_self x rest)
      · exact ih (fun y hy => h y (List.mem_cons_of_mem _ hy)) b h1

theorem sizesPositive_addBuckets (p : Nat) (o : StandingOrder) (m : SideOrders)
    (ho : 0 < o.remaining_size) (h : sizesPositive m) : sizesPositive (addBuckets p o m) := by
  induction m with
  | nil =>
    intro b hb o2 ho2
    simp only [addBuckets, List.mem_singleton] at hb
    rw [hb] at ho2
    simp only [List.mem_singleton] at ho2
    exact ho2 ▸ ho
  | cons x rest ih =>
    intro b hb
    by_cases hx : x.1 = p
    · simp only [addBuckets, if_pos hx] at hb
      rcases List.mem_cons.mp hb with h1 | h1
      · intro o2 ho2
        rw [h1] at ho2
        simp only [List.mem_append, List.mem_singleton] at ho2
        rcases ho2 with h2 | h2
        · exact h x (List.mem_cons_self x rest) o2 h2
        · exact h2 ▸ ho
      · exact h b (List.mem_cons_of_mem _ h1)
    · simp only [addBuckets, if_neg hx] at hb
      rcases List.mem_cons.mp hb with h1 | h1
      · exact h1 ▸ h x (List.mem_cons_self x rest)
      · exact ih (fun y hy => h y (List.mem_cons_of_mem _ hy)) b h1

theorem bucketsNonempty_removeByIdSide (oid : String) (m : SideOrders)
    (h : bucketsNonempty m) : bucketsNonempty (removeByIdSide oid m).2 := by
  induction m with
  | nil =>
    intro b hb
    simp [removeByIdSide] at hb
  | cons x rest ih =>
    intro b hb
    rcases hr : removeFirst oid x.2 with _ | r
    · simp only [removeByIdSide, hr] at hb
      rcases List.mem_cons.mp hb with h1 | h1
      · exact h1 ▸ h x (List.mem_cons_self x rest)
      · exact ih (fun y hy => h y (List.mem_cons_of_mem _ hy)) b h1
    · simp only [removeByIdSide, hr] at hb
      by_cases he : r.2.isEmpty
      · rw [if_pos he] at hb
        exact h b (List.mem_cons_of_mem _ hb)
      · rw [if_neg he] at hb
        rcases List.mem_cons.mp hb with h1 | h1
        · rw [h1]
          intro h2
          exact he (List.isEmpty_iff.mpr h2)
        · exact h b (List.mem_cons_of_mem _ h1)

theorem sizesPositive_removeByIdSide (oid : String) (m : SideOrders)
    (h : sizesPositive m) : sizesPositive (removeByIdSide oid m).2 := by
  induction m with
  | nil =>
    intro b hb
    simp [removeByIdSide] at hb
  | cons x rest ih =>
    intro b hb
    rcases hr : removeFirst oid x.2 with _ | r
    · simp only [removeByIdSide, hr] at hb
      rcases List.mem_cons.mp hb with h1 | h1
      · exact h1 ▸ h x (List.mem_cons_self x rest)
      · exact ih (fun y hy => h y (List.mem_cons_of_mem _ hy)) b h1
    · simp only [removeByIdSide, hr] at hb
      by_cases he : r.2.isEmpty
      · rw [if_pos he] at hb
        exact h b (List.mem_cons_of_mem _ hb)
      · rw [if_neg he] at hb
        rcases List.mem_cons.mp hb with h1 | h1
        · intro o2 ho2
          rw [h1] at ho2
          have hsub := removeFirst_subset oid x.2 r hr o2 ho2
          exact h x (List.mem_cons_self x rest) o2 hsub
        · exact h b (List.mem_cons_of_mem _ h1)

theorem bucketsNonempty_eraseKey (p : Nat) (m : SideOrders)
    (h : bucketsNonempty m) : bucketsNonempty (eraseKey p m) := by
  intro b hb
  exact h b (List.mem_filter.mp hb).1

theorem sizesPositive_eraseKey (p : Nat) (m : SideOrders)
    (h : sizesPositive m) : sizesPositive (eraseKey p m) := by
  intro b hb
  exact h b (List.mem_filter.mp hb).1

theorem bucketsNonempty_updateFillSide (oid : String) (fill : Rat) (m : SideOrders)
    (h : bucketsNonempty m) : bucketsNonempty (updateFillSide oid fill m) := by
  induction m with
  | nil =>
    intro b hb
    simp [updateFillSide] at hb
  | cons x rest ih =>
    intro b hb
    rcases hr : fillFirst oid fill x.2 with _ | r
    · simp only [updateFillSide, hr] at hb
      rcases List.mem_cons.mp hb with h1 | h1
      · exact h1 ▸ h x (List.mem_cons_self x rest)
      · exact ih (fun y hy => h y (List.mem_cons_of_mem _ hy)) b h1
    · simp only [updateFillSide, hr] at hb
      by_cases hz : r.2 = true
      · rw [if_pos hz] at hb
        by_cases hk : (r.1.filter (fun o => decide (o.order_id ≠ oid))).isEmpty
        · rw [if_pos hk] at hb
          exact h b (List.mem_cons_of_mem _ hb)
        · rw [if_neg hk] at hb
          rcases List.mem_cons.mp hb with h1 | h1
          · rw [h1]
            intro h2
            exact hk (List.isEmpty_iff.mpr h2)
          · exact h b (List.mem_cons_of_mem _ h1)
      · rw [if_neg hz] at hb
        rcases List.mem_cons.mp hb with h1 | h1
        · rw [h1]
          exact fillFirst_ne_nil oid fill x.2 r.1 r.2 (by rw [Prod.mk.eta]; exact hr)
        · exact h b (List.mem_cons_of_mem _ h1)

theorem sizesPositive_updateFillSide (oid : String) (fill : Rat) (m : SideOrders)
    (h : sizesPositive m) : sizesPositive (updateFillSide oid fill m) := by
  induction m with
  | nil =>
    intro b hb
    simp [updateFillSide] at hb
  | cons x rest ih =>
    intro b hb
    rcases hr : fillFirst oid fill x.2 with _ | r
    · simp only [updateFillSide, hr] at hb
      rcases List.mem_cons.mp hb with h1 | h1
      · exact h1 ▸ h x (List.mem_cons_self x rest)
      · exact ih (fun y hy => h y (List.mem_cons_of_mem _ hy)) b h1
    · simp only [updateFillSide, hr] at hb
      by_cases hz : r.2 = true
      · rw [if_pos hz] at hb
        by_cases hk : (r.1.filter (fun o => decide (o.order_id ≠ oid))).isEmpty
        · rw [if_pos hk] at hb
          exact h b (List.mem_cons_of_mem _ hb)
        · rw [if_neg hk] at hb
          rcases List.mem_cons.mp hb with h1 | h1
          · intro o2 ho2
            rw [h1] at ho2
            have hmem := List.mem_filter.mp ho2
            have hne : o2.order_id ≠ oid := by simpa using hmem.2
            have := fillFirst_mem_of_ne oid fill x.2 r.1 r.2
              (by rw [Prod.mk.eta]; exact hr) o2 hmem.1 hne
            exact h x (List.mem_cons_self x rest) o2 this
          · exact h b (List.mem_cons_of_mem _ h1)
      · rw [if_neg hz] at hb
        rcases List.mem_cons.mp hb with h1 | h1
        · intro o2 ho2
          rw [h1] at ho2
          have hz2 : r.2 = false := Bool.eq_false_iff.mpr hz
          exact fillFirst_mem_pos oid fill x.2 r.1
            (h x (List.mem_cons_self x rest))
            (by rw [← hz2, Prod.mk.eta]; exact hr) o2 ho2
        · exact h b (List.mem_cons_of_mem _ h1)

theorem sideInv_nil : SideInv [] :=
  ⟨fun b hb => absurd hb (List.not_mem_nil b), fun b hb => absurd hb (List.not_mem_nil b)⟩

theorem sideInv_ordersOn (t : OrderTracker) (h : TrackerInv t) (s : Side) :
    SideInv (t.ordersOn s) := by
  cases s
  · exact h.1
  · exact h.2

theorem trackerInv_setOrders (t : OrderTracker) (s : Side) (m : SideOrders)
    (h : TrackerInv t) (hm : SideInv m) : TrackerInv (t.setOrders s m) := by
  cases s
  · exact ⟨hm, h.2⟩
  · exact ⟨h.1, hm⟩

theorem trackerInv_applyOp (t : OrderTracker) (op : TrackerOp)
    (h : TrackerInv t) (hop : op.positiveAdd) : TrackerInv (applyOp t op) := by
  cases op with
  | add s oid p sz =>
    exact trackerInv_setOrders t s _ h
      ⟨bucketsNonempty_addBuckets p _ _ (sideInv_ordersOn t h s).1,
        sizesPositive_addBuckets p _ _ hop (sideInv_ordersOn t h s).2⟩
  | removeById s oid =>
    exact trackerInv_setOrders t s _ h
      ⟨bucketsNonempty_removeByIdSide oid _ (sideInv_ordersOn t h s).1,
        sizesPositive_removeByIdSide oid _ (sideInv_ordersOn t h s).2⟩
  | removeAtPrice s p =>
    exact trackerInv_setOrders t s _ h
      ⟨bucketsNonempty_eraseKey p _ (sideInv_ordersOn t h s).1,
        sizesPositive_eraseKey p _ (sideInv_ordersOn t h s).2⟩
  | updateFill s oid f =>
    exact trackerInv_setOrders t s _ h
      ⟨bucketsNonempty_updateFillSide oid f _ (sideInv_ordersOn t h s).1,
        sizesPositive_updateFillSide oid f _ (sideInv_ordersOn t h s).2⟩
  | clear s => exact trackerInv_setOrders t s [] h sideInv_nil
  | clearAll => exact ⟨sideInv_nil, sideInv_nil⟩

theorem trackerInv_applyOps (ops : List TrackerOp) (t : OrderTracker)
    (h : TrackerInv t) (hops : ∀ op ∈ ops, op.positiveAdd) :
    TrackerInv (applyOps ops t) := by
  induction ops generalizing t with
  | nil => exact h
  | cons op rest ih =>
    exact ih (applyOp t op)
      (trackerInv_applyOp t op h (hops op (List.mem_cons_self _ _)))
      (fun o ho => hops o (List.mem_cons_of_mem _ ho))

/-- Claim C2, as stated, is false at this input: a single add call with
size 0 reaches a tracker storing an order whose remaining size is 0, not
strictly greater than 0. -/
theorem tracker_invariant_counterexample :
    ¬ TrackerInv (applyOps [TrackerOp.add Side.yes "a" 500 0] OrderTracker.empty) := by
  intro h
  have hy : (applyOps [TrackerOp.add Side.yes "a" 500 0] OrderTracker.empty).yes_orders =
      [(500, [{ order_id := "a", price := 500, remaining_size := 0, original_size := 0 }])] := rfl
  have h2 := h.1.2
    (500, [{ order_id := "a", price := 500, remaining_size := 0, original_size := 0 }])
    (by rw [hy]; exact List.mem_singleton.mpr rfl)
    { order_id := "a", price := 500, remaining_size := 0, original_size := 0 }
    (List.mem_singleton.mpr rfl)
  norm_num at h2

/-- Claim C2 (amended): every tracker reachable from the empty tracker by
add, remove_by_id, remove_at_price, update_fill, clear and clear_all
calls whose add calls all carry strictly positive size satisfies the
invariant: every stored order has remaining size strictly greater than 0
and no price maps to an empty order list. -/
theorem tracker_invariant_of_positive_adds :
    ∀ ops : List TrackerOp, (∀ op ∈ ops, op.positiveAdd) →
      TrackerInv (applyOps ops OrderTracker.empty) := by
  intro ops hops
  exact trackerInv_applyOps ops OrderTracker.empty ⟨sideInv_nil, sideInv_nil⟩ hops

/-- Witness for C2: a concrete call sequence with positive add sizes. -/
theorem tracker_invariant_of_positive_adds_witness :
    (∀ op ∈ [TrackerOp.add Side.yes "a" 480 12, TrackerOp.add Side.yes "b" 490 5,
        TrackerOp.updateFill Side.yes "b" 5, TrackerOp.removeById Side.yes "a"],
      op.positiveAdd) ∧
    TrackerInv (applyOps [TrackerOp.add Side.yes "a" 480 12, TrackerOp.add Side.yes "b" 490 5,
      TrackerOp.updateFill Side.yes "b" 5, TrackerOp.removeById Side.yes "a"]
      OrderTracker.empty) :=
  ⟨by norm_num [TrackerOp.positiveAdd],
    tracker_invariant_of_positive_adds _ (by norm_num [TrackerOp.positiveAdd])⟩

theorem setOrders_setOrders (t : OrderTracker) (s : Side) (a b : SideOrders) :
    (t.setOrders s a).setOrders s b = t.setOrders s b := by
  cases t
  cases s <;> rfl

/-- Claim C10: for an order id with no order of that id on the given
side, remove_by_id returns None and leaves the tracker unchanged, and
update_fill leaves the tracker unchanged for every fill size. -/
theorem absent_id_noop :
    ∀ (t : OrderTracker) (side : Side) (oid : String),
      idCountSide oid (t.ordersOn side) = 0 →
      ∀ fill : Rat,
        t.remove_by_id side oid = (none, t) ∧ t.update_fill side oid fill = t := by
  intro t side oid h fill
  have hno : noId oid (t.ordersOn side) := (idCountSide_eq_zero oid _).mp h
  constructor
  · simp [OrderTracker.remove_by_id, removeByIdSide_noId oid _ hno, setOrders_ordersOn]
  · simp [OrderTracker.update_fill, updateFillSide_noId oid fill _ hno, setOrders_ordersOn]

/-- Witness for C10 on a tracker holding one unrelated order. -/
theorem absent_id_noop_witness :
    idCountSide "z" ((OrderTracker.empty.add Side.yes "b" 480 12).ordersOn Side.yes) = 0 ∧
    (OrderTracker.empty.add Side.yes "b" 480 12).remove_by_id Side.yes "z" =
      (none, OrderTracker.empty.add Side.yes "b" 480 12) ∧
    (OrderTracker.empty.add Side.yes "b" 480 12).update_fill Side.yes "z" 4 =
      OrderTracker.empty.add Side.yes "b" 480 12 :=
  ⟨by decide, (absent_id_noop _ Side.yes "z" (by decide) 4).1,
    (absent_id_noop _ Side.yes "z" (by decide) 4).2⟩

theorem removeByIdSide_addBuckets (oid : String) (p : Nat) (o : StandingOrder)
    (ho : o.order_id = oid) (m : SideOrders)
    (hne : bucketsNonempty m) (hfresh : noId oid m) :
    removeByIdSide oid (addBuckets p o m) = (some o, m) := by
  induction m with
  | nil => simp [addBuckets, removeByIdSide, removeFirst, ho]
  | cons b rest ih =>
    have hb2 : ∀ x ∈ b.2, x.order_id ≠ oid := hfresh b (List.mem_cons_self b rest)
    by_cases hb : b.1 = p
    · have hbne : b.2 ≠ [] := hne b (List.mem_cons_self b rest)
      have hie : b.2.isEmpty = false := by
        rw [Bool.eq_false_iff]
        intro h2
        exact hbne (List.isEmpty_iff.mp h2)
      simp [addBuckets, if_pos hb, removeByIdSide,
        removeFirst_append_fresh oid b.2 o ho hb2, hie]
    · simp only [addBuckets, if_neg hb]
      simp only [removeByIdSide, removeFirst_none oid b.2 hb2]
      rw [ih (fun y hy => hne y (List.mem_cons_of_mem _ hy))
        (fun y hy => hfresh y (List.mem_cons_of_mem _ hy))]

theorem remove_by_id_add (t : OrderTracker) (side : Side) (oid : String) (price : Nat)
    (size : Rat) (hne : bucketsNonempty (t.ordersOn side)) (hno : noId oid (t.ordersOn side)) :
    (t.add side oid price size).remove_by_id side oid =
      (some { order_id := oid, price := price, remaining_size := size, original_size := size },
        t) := by
  simp only [OrderTracker.add, OrderTracker.remove_by_id]
  rw [ordersOn_setOrders, if_pos rfl]
  rw [removeByIdSide_addBuckets oid price _ rfl (t.ordersOn side) hne hno]
  simp [setOrders_setOrders, setOrders_ordersOn]

theorem bucketsNonempty_setOrdersAll (t : OrderTracker) (s0 : Side) (m : SideOrders)
    (h : ∀ s, bucketsNonempty (t.ordersOn s)) (hm : bucketsNonempty m) :
    ∀ s, bucketsNonempty ((t.setOrders s0 m).ordersOn s) := by
  intro s
  rw [ordersOn_setOrders]
  by_cases hs : s = s0
  · rw [if_pos hs]
    exact hm
  · rw [if_neg hs]
    exact h s

theorem bucketsNonempty_applyOp (t : OrderTracker) (op : TrackerOp)
    (h : ∀ s, bucketsNonempty (t.ordersOn s)) :
    ∀ s, bucketsNonempty ((applyOp t op).ordersOn s) := by
  cases op with
  | add s0 oid p sz =>
    exact bucketsNonempty_setOrdersAll t s0 _ h (bucketsNonempty_addBuckets p _ _ (h s0))
  | removeById s0 oid =>
    exact bucketsNonempty_setOrdersAll t s0 _ h (bucketsNonempty_removeByIdSide oid _ (h s0))
  | removeAtPrice s0 p =>
    exact bucketsNonempty_setOrdersAll t s0 _ h (bucketsNonempty_eraseKey p _ (h s0))
  | updateFill s0 oid f =>
    exact bucketsNonempty_setOrdersAll t s0 _ h (bucketsNonempty_updateFillSide oid f _ (h s0))
  | clear s0 =>
    exact bucketsNonempty_setOrdersAll t s0 [] h (fun b hb => absurd hb (List.not_mem_nil b))
  | clearAll =>
    intro s
    cases s <;> exact fun b hb => absurd hb (List.not_mem_nil b)

theorem bucketsNonempty_applyOps (ops : List TrackerOp) (t : OrderTracker)
    (h : ∀ s, bucketsNonempty (t.ordersOn s)) :
    ∀ s, bucketsNonempty ((applyOps ops t).ordersOn s) := by
  induction ops generalizing t with
  | nil => exact h
  | cons op rest ih => exact ih (applyOp t op) (bucketsNonempty_applyOp t op h)

/-- Claim C9: on any tracker reached from the empty tracker by API calls,
adding an order with a fresh id and positive size and then removing it by
id returns the added order and restores the tracker state exactly. -/
theorem add_remove_round_trip :
    ∀ (ops : List TrackerOp) (side : Side) (oid : String) (price : Nat) (size : Rat),
      0 < size →
      idCountSide oid ((applyOps ops OrderTracker.empty).ordersOn side) = 0 →
      ((applyOps ops OrderTracker.empty).add side oid price size).remove_by_id side oid =
        (some { order_id := oid, price := price, remaining_size := size, original_size := size },
          applyOps ops OrderTracker.empty) := by
  intro ops side oid price size _ hfresh
  have hne : bucketsNonempty ((applyOps ops OrderTracker.empty).ordersOn side) :=
    bucketsNonempty_applyOps ops OrderTracker.empty
      (fun s => by cases s <;> exact fun b hb => absurd hb (List.not_mem_nil b)) side
  have hno : noId oid ((applyOps ops OrderTracker.empty).ordersOn side) :=
    (idCountSide_eq_zero oid _).mp hfresh
  exact remove_by_id_add _ side oid price size hne hno

/-- Witness for C9: one prior add, then a fresh add and its removal. -/
theorem add_remove_round_trip_witness :
    ((0 : Rat) < 7 ∧
      idCountSide "c"
        ((applyOps [TrackerOp.add Side.yes "b" 480 12] OrderTracker.empty).ordersOn Side.yes) =
        0) ∧
    ((applyOps [TrackerOp.add Side.yes "b" 480 12] OrderTracker.empty).add Side.yes "c" 470
          7).remove_by_id Side.yes "c" =
      (some { order_id := "c", price := 470, remaining_size := 7, original_size := 7 },
        applyOps [TrackerOp.add Side.yes "b" 480 12] OrderTracker.empty) :=
  ⟨⟨by norm_num, by decide⟩,
    add_remove_round_trip [TrackerOp.add Side.yes "b" 480 12] Side.yes "c" 470 7 (by norm_num)
      (by decide)⟩

theorem fillFirst_of_find (oid : String) (fill : Rat) (os : List StandingOrder)
    (o : StandingOrder) (hf : os.find? (fun x => decide (x.order_id = oid)) = some o) :
    ∃ os2, fillFirst oid fill os = some (os2, decide (o.remaining_size - fill ≤ 0)) ∧
      os2.find? (fun x => decide (x.order_id = oid)) =
        some { o with remaining_size := o.remaining_size - fill } := by
  induction os with
  | nil => simp at hf
  | cons x rest ih =>
    by_cases hx : x.order_id = oid
    · have hxo : x = o := by simpa [List.find?, hx] using hf
      subst hxo
      refine ⟨{ x with remaining_size := x.remaining_size - fill } :: rest, ?_, ?_⟩
      · simp [fillFirst, hx]
      · simp [List.find?, hx]
    · have hf2 : rest.find? (fun y => decide (y.order_id = oid)) = some o := by
        simpa [List.find?, hx] using hf
      obtain ⟨os2, h1, h2⟩ := ih hf2
      refine ⟨x :: os2, ?_, ?_⟩
      · simp [fillFirst, hx, h1]
      · simp [List.find?, hx, h2]

theorem fillFirst_zero (oid : String) (os : List StandingOrder)
    (h : ∀ x ∈ os, 0 < x.remaining_size) :
    fillFirst oid 0 os = none ∨ fillFirst oid 0 os = some (os, false) := by
  induction os with
  | nil => exact Or.inl rfl
  | cons x rest ih =>
    by_cases hx : x.order_id = oid
    · right
      have hpos := h x (List.mem_cons_self x rest)
      obtain ⟨xid, xp, xr, xo⟩ := x
      have hx2 : xid = oid := hx
      subst hx2
      have hpos2 : (0 : Rat) < xr := hpos
      simp [fillFirst, sub_zero, not_le.mpr hpos2]
    · rcases ih (fun y hy => h y (List.mem_cons_of_mem _ hy)) with h1 | h1 <;>
        simp [fillFirst, hx, h1]

theorem updateFillSide_zero (oid : String) (m : SideOrders) (h : sizesPositive m) :
    updateFillSide oid 0 m = m := by
  induction m with
  | nil => rfl
  | cons b rest ih =>
    rcases fillFirst_zero oid b.2 (h b (List.mem_cons_self b rest)) with h1 | h1
    · simp [updateFillSide, h1, ih (fun y hy => h y (List.mem_cons_of_mem _ hy))]
    · simp [updateFillSide, h1]

theorem findPriceSide_noId (oid : String) (m : SideOrders) (h : noId oid m) :
    findPriceSide oid m = none := by
  induction m with
  | nil => rfl
  | cons b rest ih =>
    have hb := h b (List.mem_cons_self b rest)
    have hany : b.2.any (fun x => decide (x.order_id = oid)) = false := by
      rw [List.any_eq_false]
      intro x hx
      simpa using hb x hx
    simp [findPriceSide, hany, ih (fun y hy => h y (List.mem_cons_of_mem _ hy))]

theorem lookupBucket_mem (m : SideOrders) (p : Nat) (os : List StandingOrder)
    (h : lookupBucket m p = some os) : (p, os) ∈ m := by
  induction m with
  | nil => simp [lookupBucket] at h
  | cons b rest ih =>
    by_cases hb : b.1 = p
    · simp only [lookupBucket, if_pos hb, Option.some.injEq] at h
      rw [← hb, ← h, Prod.mk.eta]
      exact List.mem_cons_self b rest
    · simp only [lookupBucket, if_neg hb] at h
      exact List.mem_cons_of_mem _ (ih h)

theorem noId_orders_at_price (m : SideOrders) (oid : String) (h : noId oid m) (p : Nat) :
    ∀ x ∈ (lookupBucket m p).getD [], x.order_id ≠ oid := by
  intro x hx
  rcases hl : lookupBucket m p with _ | os
  · rw [hl] at hx
    simp at hx
  · rw [hl] at hx
    simp only [Option.getD_some] at hx
    exact h (p, os) (lookupBucket_mem m p os hl) x hx

theorem noId_flatten (m : SideOrders) (oid : String) (h : noId oid m) :
    ∀ x ∈ (m.map (fun b => b.2)).flatten, x.order_id ≠ oid := by
  intro x hx
  rw [List.mem_flatten] at hx
  obtain ⟨l, hl, hxl⟩ := hx
  rw [List.mem_map] at hl
  obtain ⟨b, hb, rfl⟩ := hl
  exact h b hb x hxl

theorem idCountSide_cons (oid : String) (b : Nat × List StandingOrder) (rest : SideOrders) :
    idCountSide oid (b :: rest) =
      (b.2.filter (fun x => decide (x.order_id = oid))).length + idCountSide oid rest := by
  simp [idCountSide]

theorem updateFillSide_found (oid : String) (fill : Rat) (m : SideOrders) (o : StandingOrder)
    (hcount : idCountSide oid m = 1) (hfind : findOrderSide oid m = some o) :
    (o.remaining_size - fill ≤ 0 → noId oid (updateFillSide oid fill m)) ∧
    (0 < o.remaining_size - fill →
      findOrderSide oid (updateFillSide oid fill m) =
        some { o with remaining_size := o.remaining_size - fill }) := by
  induction m with
  | nil => simp [findOrderSide] at hfind
  | cons b rest ih =>
    rcases hf : b.2.find? (fun x => decide (x.order_id = oid)) with _ | o0
    · have hb2 : ∀ x ∈ b.2, x.order_id ≠ oid := by
        intro x hx
        have := List.find?_eq_none.mp hf x hx
        simpa using this
      have hff : fillFirst oid fill b.2 = none := fillFirst_none oid fill b.2 hb2
      have hfind2 : findOrderSide oid rest = some o := by
        simpa [findOrderSide, hf] using hfind
      have hcount2 : idCountSide oid rest = 1 := by
        have hb0 : (b.2.filter (fun x => decide (x.order_id = oid))).length = 0 := by
          rw [List.length_eq_zero, List.filter_eq_nil_iff]
          intro x hx
          simpa using hb2 x hx
        rw [idCountSide_cons, hb0] at hcount
        simpa using hcount
      obtain ⟨ha, hb⟩ := ih hcount2 hfind2
      constructor
      · intro hle
        simp only [updateFillSide, hff]
        intro b2 hmem
        rcases List.mem_cons.mp hmem with h1 | h1
        · rw [h1]
          exact hb2
        · exact ha hle b2 h1
      · intro hpos
        simp only [updateFillSide, hff, findOrderSide, hf]
        exact hb hpos
    · have ho : o0 = o := by simpa [findOrderSide, hf] using hfind
      subst ho
      obtain ⟨os2, hff, hfind2⟩ := fillFirst_of_find oid fill b.2 o0 hf
      have hmem0 : o0 ∈ b.2 := List.mem_of_find?_eq_some hf
      have hpred := List.find?_some hf
      have hpos0 : 0 < (b.2.filter (fun x => decide (x.order_id = oid))).length :=
        List.length_pos_of_mem (List.mem_filter.mpr ⟨hmem0, hpred⟩)
      have hrest0 : idCountSide oid rest = 0 := by
        rw [idCountSide_cons] at hcount
        omega
      have hnorest : noId oid rest := (idCountSide_eq_zero oid rest).mp hrest0
      constructor
      · intro hle
        have hz : decide (o0.remaining_size - fill ≤ 0) = true := decide_eq_true hle
        simp only [updateFillSide, hff, hz, if_true]
        by_cases hk : (os2.filter (fun x => decide (x.order_id ≠ oid))).isEmpty
        · rw [if_pos hk]
          exact hnorest
        · rw [if_neg hk]
          intro b2 hmem
          rcases List.mem_cons.mp hmem with h1 | h1
          · rw [h1]
            intro x hx
            have := List.mem_filter.mp hx
            simpa using this.2
          · exact hnorest b2 h1
      · intro hpos
        have hz : decide (o0.remaining_size - fill ≤ 0) = false :=
          decide_eq_false (not_le.mpr hpos)
        simp only [updateFillSide, hff, hz, Bool.false_eq_true, if_false]
        simp only [findOrderSide, hfind2]

/-- Claim C7: on an invariant-satisfying tracker whose given side holds
exactly one order with the given id, update_fill with a positive fill
strictly decreases that order's remaining size; when the remaining size
reaches 0 or below the order is removed and absent from every id-bearing
query (orders_at_price, all_orders, find_price_by_id; total_size_at_price
and count range over the same stored orders); a zero-size fill leaves the
tracker unchanged. -/
theorem update_fill_spec :
    ∀ (t : OrderTracker) (side : Side) (oid : String) (fill : Rat) (o : StandingOrder),
      TrackerInv t →
      idCountSide oid (t.ordersOn side) = 1 →
      findOrderSide oid (t.ordersOn side) = some o →
      ((0 < fill →
        (o.remaining_size - fill ≤ 0 →
          (t.update_fill side oid fill).find_price_by_id side oid = none ∧
          (∀ p : Nat, ∀ x ∈ (t.update_fill side oid fill).orders_at_price side p,
            x.order_id ≠ oid) ∧
          (∀ x ∈ (t.update_fill side oid fill).all_orders side, x.order_id ≠ oid)) ∧
        (0 < o.remaining_size - fill →
          findOrderSide oid ((t.update_fill side oid fill).ordersOn side) =
            some { o with remaining_size := o.remaining_size - fill } ∧
          o.remaining_size - fill < o.remaining_size)) ∧
      t.update_fill side oid 0 = t) := by
  intro t side oid fill o hinv hcount hfind
  have hOrders : (t.update_fill side oid fill).ordersOn side =
      updateFillSide oid fill (t.ordersOn side) := by
    simp [OrderTracker.update_fill, ordersOn_setOrders]
  have hm := updateFillSide_found oid fill (t.ordersOn side) o hcount hfind
  constructor
  · intro hfill
    constructor
    · intro hle
      have hno := hm.1 hle
      refine ⟨?_, ?_, ?_⟩
      · show findPriceSide oid ((t.update_fill side oid fill).ordersOn side) = none
        rw [hOrders]
        exact findPriceSide_noId oid _ hno
      · intro p
        show ∀ x ∈ (lookupBucket ((t.update_fill side oid fill).ordersOn side) p).getD [],
          x.order_id ≠ oid
        rw [hOrders]
        exact noId_orders_at_price _ oid hno p
      · show ∀ x ∈ (((t.update_fill side oid fill).ordersOn side).map
            (fun b => b.2)).flatten, x.order_id ≠ oid
        rw [hOrders]
        exact noId_flatten _ oid hno
    · intro hpos
      refine ⟨?_, sub_lt_self _ hfill⟩
      rw [hOrders]
      exact hm.2 hpos
  · have hz := updateFillSide_zero oid (t.ordersOn side) (sideInv_ordersOn t hinv side).2
    simp [OrderTracker.update_fill, hz, setOrders_ordersOn]

/-- Witness for C7: one order of size 10 at 450, filled by 4, and the
zero-fill no-op on the same tracker. -/
theorem update_fill_spec_witness :
    ((0 : Rat) < 4 ∧ (0 : Rat) < (10 : Rat) - 4) ∧
    (findOrderSide "a"
        (((OrderTracker.empty.add Side.yes "a" 450 10).update_fill Side.yes "a" 4).ordersOn
          Side.yes) =
      some { order_id := "a", price := 450, remaining_size := (10 : Rat) - 4, original_size := 10 } ∧
      (10 : Rat) - 4 < 10) ∧
    (OrderTracker.empty.add Side.yes "a" 450 10).update_fill Side.yes "a" 0 =
      OrderTracker.empty.add Side.yes "a" 450 10 :=
  ⟨⟨by norm_num, by norm_num⟩,
    ((update_fill_spec (OrderTracker.empty.add Side.yes "a" 450 10) Side.yes "a" 4
        { order_id := "a", price := 450, remaining_size := 10, original_size := 10 }
        (by norm_num [TrackerInv, SideInv, bucketsNonempty, sizesPositive, OrderTracker.empty,
          OrderTracker.add, OrderTracker.setOrders, OrderTracker.ordersOn, addBuckets])
        (by decide) rfl).1 (by norm_num)).2 (by norm_num),
    (update_fill_spec (OrderTracker.empty.add Side.yes "a" 450 10) Side.yes "a" 4
        { order_id := "a", price := 450, remaining_size := 10, original_size := 10 }
        (by norm_num [TrackerInv, SideInv, bucketsNonempty, sizesPositive, OrderTracker.empty,
          OrderTracker.add, OrderTracker.setOrders, OrderTracker.ordersOn, addBuckets])
        (by decide) rfl).2⟩

/-- Book of Scenario D: the NO ask 515 prices the YES ladder top at
1000 - 515 - 5 = 480; the YES ask is absent so the NO side builds no
ladder and the rebalance take has no priced ask to use. -/
def bookD : Book :=
  { yes_bid := none, yes_ask := none, no_bid := some 505, no_ask := some 515,
    last_update_ms := 1000 }

/-- Resting orders of Scenario D: 12 at 480 and 5 at 490, both YES. -/
def ordersD : OrderTracker :=
  (OrderTracker.empty.add Side.yes "o480" 480 12).add Side.yes "o490" 490 5

/-- Market of Scenario D: over 180 s remain, so the 5-minute size is 12. -/
def marketD : Market :=
  { market_id := "m", token_id_yes := "y", token_id_no := "n", slug := "s",
    end_timestamp_ms := 1000000 }

/-- Claim C1: whenever the per-side ideal ladder is 480, 470, 460 at size
12 and the side's resting orders are one order of size 12 at 480 and one
of size 5 at 490, reconciliation for that side emits exactly the Cancel
of the order at 490 and Places of 12 at 470 and 460, with the 480 rung
untouched; on the concrete Scenario D state the full reconcile returns
exactly those three actions. reconcile is modelled from the spec (the
source function is a stub). -/
theorem reconcile_scenario_d :
    (∀ (side : Side) (book : Book) (position : Position) (orders : OrderTracker)
        (time_remaining : Int) (config : StrategyConfig) (id1 id2 : String),
      build_ladder (calc_max_bid side book config.margin_ticks)
          (calc_size_with_limit side position time_remaining config.duration
            config.max_position) config =
        [(480, 12), (470, 12), (460, 12)] →
      orders.ordersOn side =
        [(480, [{ order_id := id1, price := 480, remaining_size := 12, original_size := 12 }]),
          (490, [{ order_id := id2, price := 490, remaining_size := 5, original_size := 5 }])] →
      config.min_order_size ≤ 12 →
      reconcileSide side book position orders time_remaining config =
        [BotAction.Cancel id2, BotAction.Place side 470 12, BotAction.Place side 460 12]) ∧
    reconcile bookD Position.default ordersD marketD StrategyConfig.default 0 =
      [BotAction.Cancel "o490", BotAction.Place Side.yes 470 12,
        BotAction.Place Side.yes 460 12] := by
  constructor
  · intro side book position orders time_remaining config id1 id2 hladder horders hmos
    simp only [reconcileSide, OrderTracker.total_size_at_price, hladder, horders]
    norm_num [lookupAssoc, lookupBucket, hmos]
    norm_num [List.filterMap_cons, hmos]
    exact Option.some_ne_none _
  · norm_num [reconcile, reconcileSide, check_rebalance, bookD, ordersD, marketD,
      StrategyConfig.default, Market.time_remaining_secs, calc_max_bid, Book.opposite_ask,
      calc_size_with_limit, can_place, Position.net_position, Position.imbalance,
      Position.default, calc_size, calc_size_5m, build_ladder, insertAssoc, lookupAssoc,
      OrderTracker.total_size_at_price, OrderTracker.ordersOn, OrderTracker.empty,
      OrderTracker.add, OrderTracker.setOrders, addBuckets, lookupBucket, List.range_succ,
      Book.best_ask]
    norm_num [List.filterMap_cons]
    exact Option.some_ne_none _

/-- Witness for C1: the per-side statement applied at Scenario D's inputs. -/
theorem reconcile_scenario_d_witness :
    (build_ladder (calc_max_bid Side.yes bookD StrategyConfig.default.margin_ticks)
        (calc_size_with_limit Side.yes Position.default 1000 StrategyConfig.default.duration
          StrategyConfig.default.max_position) StrategyConfig.default =
      [(480, 12), (470, 12), (460, 12)] ∧
      StrategyConfig.default.min_order_size ≤ 12) ∧
    reconcileSide Side.yes bookD Position.default ordersD 1000 StrategyConfig.default =
      [BotAction.Cancel "o490", BotAction.Place Side.yes 470 12,
        BotAction.Place Side.yes 460 12] :=
  ⟨⟨by norm_num [build_ladder, calc_max_bid, bookD, Book.opposite_ask, calc_size_with_limit,
      can_place, Position.default, Position.net_position, calc_size, calc_size_5m,
      StrategyConfig.default, insertAssoc, List.range_succ],
    by norm_num [StrategyConfig.default]⟩,
    reconcile_scenario_d.1 Side.yes bookD Position.default ordersD 1000 StrategyConfig.default
      "o480" "o490"
      (by norm_num [build_ladder, calc_max_bid, bookD, Book.opposite_ask, calc_size_with_limit,
        can_place, Position.default, Position.net_position, calc_size, calc_size_5m,
        StrategyConfig.default, insertAssoc, List.range_succ])
      rfl (by norm_num [StrategyConfig.default])⟩
